import Mathlib

/-!
Verification of the devpilot-ai conversation loop and chat transport.

The development shallowly embeds the core of the repository:
`src/core/gemini-client.ts` (transcript serialization, response parsing,
the streaming chunk parser) and `src/core/agent.ts` (the tool-calling
conversation loop with bounded retry and self-correction hints).

External collaborators (the HTTP endpoint, the tool implementations, the
JavaScript runtime's `JSON.parse` and id-entropy sources) are modelled as
explicit oracle parameters, so every definition is executable.
-/

namespace DevPilot

/-- Roles a transcript message can carry (`GeminiMessage.role` in src/types). -/
inductive Role where
  | user
  | assistant
  | system
deriving DecidableEq, Repr

/-- JSON values: the model of the JavaScript runtime values flowing through the
client (tool-call `arguments : Record<string, any>`, parsed wire objects).
Numbers are modelled as integers, the only numeric shape the embedded code
ever produces or inspects. -/
inductive Json where
  | null
  | bool (b : Bool)
  | num (n : Int)
  | str (s : String)
  | arr (elems : List Json)
  | obj (fields : List (String × Json))
deriving Repr

/-- JavaScript truthiness of a JSON value: `null`, `false`, `0` and `""` are
falsy; arrays and objects (even empty ones) are truthy. -/
def jsTruthy : Json → Bool
  | Json.null => false
  | Json.bool b => b
  | Json.num n => n ≠ 0
  | Json.str s => s ≠ ""
  | Json.arr _ => true
  | Json.obj _ => true

/-- Model of the JavaScript expression `x || d` where `x` may be `undefined`
(`none`): the default is taken when `x` is absent or falsy. -/
def jsOr (x : Option Json) (d : Json) : Json :=
  match x with
  | none => d
  | some j => if jsTruthy j then j else d

/-- Model of `x || d` on a possibly absent string (`undefined` and `""` both
fall through to the default, as in JavaScript). -/
def jsOrStr (x : Option String) (d : String) : String :=
  match x with
  | none => d
  | some s => if s ≠ "" then s else d

/-- ToolCall.function in src/types: the called tool's name and arguments. -/
structure ToolCallFunction where
  name : String
  arguments : Json
deriving Repr

/-- ToolCall in src/types: a model-issued request to invoke one tool. -/
structure ToolCall where
  id : String
  type : String
  function : ToolCallFunction
deriving Repr

/-- ToolResult in src/types; `is_error` is an optional field, absent on the
success path. -/
structure ToolResult where
  tool_call_id : String
  content : String
  is_error : Option Bool
deriving Repr

/-- Model of JavaScript truthiness of the optional `is_error` field
(`undefined` is falsy). -/
def ToolResult.isError (r : ToolResult) : Bool :=
  r.is_error.getD false

/-- GeminiMessage in src/types: one transcript entry. -/
structure GeminiMessage where
  role : Role
  content : String
  toolCalls : Option (List ToolCall)
  toolResults : Option (List ToolResult)
deriving Repr

/-! ## Chat transport: transcript serialization (gemini-client.ts) -/

/-- One part of a wire turn in the Gemini request format. -/
inductive WirePart where
  | text (text : String)
  | functionCall (name : String) (args : Json)
  | functionResponse (name : String) (responseName : String) (responseContent : String)
deriving Repr

/-- One wire turn of the serialized request (`{role, parts}`). -/
structure WireContent where
  role : String
  parts : List WirePart
deriving Repr

/-- Per-message body of the `messages.map` in
`GeminiClient.convertToGeminiContents` (src/core/gemini-client.ts:170):
text content (when truthy), then tool-call parts, then tool-result parts. -/
def convertMessage (msg : GeminiMessage) : WireContent :=
  let textParts := if msg.content ≠ "" then [WirePart.text msg.content] else []
  let callParts :=
    match msg.toolCalls with
    | some tcs =>
      if tcs.length > 0 then
        tcs.map (fun toolCall => WirePart.functionCall toolCall.function.name toolCall.function.arguments)
      else []
    | none => []
  let resultParts :=
    match msg.toolResults with
    | some trs =>
      if trs.length > 0 then
        trs.map (fun toolResult =>
          WirePart.functionResponse "function_response" toolResult.tool_call_id toolResult.content)
      else []
    | none => []
  { role := if msg.role = Role.assistant then "model" else "user"
    parts := textParts ++ callParts ++ resultParts }

/-- Shallow embedding of `GeminiClient.convertToGeminiContents`
(src/core/gemini-client.ts:170-211): every transcript message becomes one
wire turn; `assistant` maps to role `model`, everything else (including the
system message) maps to role `user`. -/
def convertToGeminiContents (messages : List GeminiMessage) : List WireContent :=
  messages.map convertMessage

/-! ## Agent: bounded context window (agent.ts) -/

/-- Shallow embedding of `DevPilotAgent.getLimitedConversation`
(src/core/agent.ts:391-405): keep the whole transcript up to 11 messages,
otherwise the system message (index 0) plus the last 10 messages. -/
def getLimitedConversation (conversation : List GeminiMessage) : List GeminiMessage :=
  let maxMessages := 11
  if conversation.length ≤ maxMessages then
    conversation
  else
    match conversation with
    | [] => []
    | systemMessage :: _ => systemMessage :: conversation.drop (conversation.length - 10)

/-! ## Claims C4 and C9: the bounded window -/

theorem getLimitedConversation_short {conv : List GeminiMessage} (h : conv.length ≤ 11) :
    getLimitedConversation conv = conv := by
  simp [getLimitedConversation, h]

theorem getLimitedConversation_long {conv : List GeminiMessage} (h : 11 < conv.length) :
    getLimitedConversation conv = conv.take 1 ++ conv.drop (conv.length - 10) := by
  match conv, h with
  | m :: rest, h =>
    have hn : ¬ (m :: rest).length ≤ 11 := by omega
    simp only [getLimitedConversation, hn, if_false]
    rfl

theorem getLimitedConversation_long_length {conv : List GeminiMessage} (h : 11 < conv.length) :
    (getLimitedConversation conv).length = 11 := by
  rw [getLimitedConversation_long h]
  rw [List.length_append, List.length_take, List.length_drop]
  omega

/-- Claim C4: the bounded-window function is the identity on transcripts of at
most 11 messages; on longer transcripts it returns the message at index 0
followed by the most recent 10 messages; for a 13-message transcript it
returns exactly these 11 messages. -/
theorem bounded_window_spec (conv : List GeminiMessage) :
    (conv.length ≤ 11 → getLimitedConversation conv = conv) ∧
    (11 < conv.length →
      getLimitedConversation conv = conv.take 1 ++ conv.drop (conv.length - 10) ∧
      (getLimitedConversation conv).length = 11) ∧
    (conv.length = 13 →
      getLimitedConversation conv = conv.take 1 ++ conv.drop 3 ∧
      (getLimitedConversation conv).length = 11) := by
  refine ⟨fun h => getLimitedConversation_short h, fun h => ⟨getLimitedConversation_long h, getLimitedConversation_long_length h⟩, fun h13 => ?_⟩
  have h : 11 < conv.length := by omega
  refine ⟨?_, getLimitedConversation_long_length h⟩
  rw [getLimitedConversation_long h, h13]

/-- Sample message used to instantiate hypotheses of the claim theorems. -/
def dummyMsg : GeminiMessage :=
  { role := Role.user, content := "m", toolCalls := none, toolResults := none }

theorem bounded_window_spec_witness :
    (List.replicate 13 dummyMsg).length = 13 ∧
    getLimitedConversation (List.replicate 13 dummyMsg) =
      (List.replicate 13 dummyMsg).take 1 ++ (List.replicate 13 dummyMsg).drop 3 ∧
    (getLimitedConversation (List.replicate 13 dummyMsg)).length = 11 :=
  ⟨by simp, (bounded_window_spec (List.replicate 13 dummyMsg)).2.2 (by simp)⟩

/-- Claim C9: the bounded-window function is a pure function of the transcript
(equal transcripts give equal results) and is idempotent. -/
theorem bounded_window_idempotent (c1 c2 : List GeminiMessage) (h : c1 = c2) :
    getLimitedConversation (getLimitedConversation c1) = getLimitedConversation c1 ∧
    getLimitedConversation c1 = getLimitedConversation c2 := by
  subst h
  refine ⟨?_, rfl⟩
  by_cases hlen : c1.length ≤ 11
  · rw [getLimitedConversation_short hlen]
    exact getLimitedConversation_short hlen
  · have h11 : 11 < c1.length := Nat.not_le.mp hlen
    exact getLimitedConversation_short (by rw [getLimitedConversation_long_length h11])

theorem bounded_window_idempotent_witness :
    getLimitedConversation (getLimitedConversation (List.replicate 13 dummyMsg)) =
      getLimitedConversation (List.replicate 13 dummyMsg) :=
  (bounded_window_idempotent (List.replicate 13 dummyMsg) (List.replicate 13 dummyMsg) rfl).1

/-! ## Claim C1: the system message is not merged into the first user turn -/

/-- Concrete system message for the C1 counterexample. -/
def c1SysMsg : GeminiMessage :=
  { role := Role.system, content := "You are DevPilot.", toolCalls := none, toolResults := none }

/-- Concrete user message for the C1 counterexample. -/
def c1UserMsg : GeminiMessage :=
  { role := Role.user, content := "hi", toolCalls := none, toolResults := none }

/-- Counterexample to claim C1: serializing the transcript
`[system "You are DevPilot.", user "hi"]` emits TWO wire turns — the system
message gets its own turn (role `user`, text unchanged) and the first user
turn's text is exactly `"hi"` with nothing prepended.  The claim requires the
merge to leave no separate wire turn for the system message, which would make
the serialized contents a single turn here. -/
theorem system_merge_counterexample :
    convertToGeminiContents [c1SysMsg, c1UserMsg] =
      [{ role := "user", parts := [WirePart.text "You are DevPilot."] },
       { role := "user", parts := [WirePart.text "hi"] }] ∧
    (convertToGeminiContents [c1SysMsg, c1UserMsg]).length ≠ 1 := by
  constructor
  · rfl
  · decide

/-- Claim C1 as amended: the transport's serialization performs no system-merge
at all.  Every transcript message becomes its own wire turn at the same index;
a system message is emitted as a separate turn of role `"user"` that itself
carries the system text, rather than being prepended to the first user
message. -/
theorem system_message_own_turn (msgs : List GeminiMessage) (i : Nat) (h : i < msgs.length) :
    (convertToGeminiContents msgs).length = msgs.length ∧
    ((msgs.get ⟨i, h⟩).role = Role.system →
      ∃ h2 : i < (convertToGeminiContents msgs).length,
        ((convertToGeminiContents msgs).get ⟨i, h2⟩).role = "user" ∧
        ((msgs.get ⟨i, h⟩).content ≠ "" →
          WirePart.text (msgs.get ⟨i, h⟩).content ∈
            ((convertToGeminiContents msgs).get ⟨i, h2⟩).parts)) := by
  have hlen : (convertToGeminiContents msgs).length = msgs.length := by
    simp [convertToGeminiContents]
  refine ⟨hlen, fun hsys => ⟨by omega, ?_, ?_⟩⟩
  · have : (convertToGeminiContents msgs).get ⟨i, by omega⟩ = convertMessage (msgs.get ⟨i, h⟩) := by
      simp [convertToGeminiContents]
    rw [this, convertMessage, hsys]
    rfl
  · intro hc
    have : (convertToGeminiContents msgs).get ⟨i, by omega⟩ = convertMessage (msgs.get ⟨i, h⟩) := by
      simp [convertToGeminiContents]
    rw [this]
    simp only [convertMessage]
    rw [if_pos hc]
    exact List.mem_append_left _ (List.mem_append_left _ (List.mem_cons_self _ _))

theorem system_message_own_turn_witness :
    (convertToGeminiContents [c1SysMsg, c1UserMsg]).length = 2 ∧
    ∃ h2 : 0 < (convertToGeminiContents [c1SysMsg, c1UserMsg]).length,
      ((convertToGeminiContents [c1SysMsg, c1UserMsg]).get ⟨0, h2⟩).role = "user" ∧
      (([c1SysMsg, c1UserMsg].get ⟨0, by decide⟩).content ≠ "" →
        WirePart.text (([c1SysMsg, c1UserMsg].get ⟨0, by decide⟩).content) ∈
          ((convertToGeminiContents [c1SysMsg, c1UserMsg]).get ⟨0, h2⟩).parts) :=
  ⟨(system_message_own_turn [c1SysMsg, c1UserMsg] 0 (by decide)).1,
   (system_message_own_turn [c1SysMsg, c1UserMsg] 0 (by decide)).2 rfl⟩

/-! ## Agent: tool execution with bounded retry and self-correction (agent.ts)

The external world is modelled by two oracle streams:
`toolRuns` supplies, per actual `tool.function` invocation, the outcome as a
function of the tool call being executed (so re-invocation with the original
arguments is observable), and `chats` supplies the successive parsed responses
of `client.chat` (the transport; parse is covered separately). -/

/-- Names of the five registered tools (`this.tools` in the agent's
constructor: file reader, file explorer, bash, file editor, code search). -/
def toolNames : List String := ["read_file", "list_files", "bash", "edit_file", "code_search"]

/-- Prefix test on character lists (structural, so proofs can evaluate it). -/
def listIsPrefixOf : List Char → List Char → Bool
  | [], _ => true
  | _ :: _, [] => false
  | p :: ps, c :: cs => p = c && listIsPrefixOf ps cs

/-- Substring test on character lists. -/
def listContainsSub (pat : List Char) : List Char → Bool
  | [] => pat.isEmpty
  | c :: rest => listIsPrefixOf pat (c :: rest) || listContainsSub pat rest

/-- Model of JavaScript `String.prototype.includes`. -/
def strContains (s pat : String) : Bool :=
  listContainsSub pat.data s.data

/-- ASCII lower-casing of one character (the heuristics only match ASCII). -/
def charToLower (c : Char) : Char :=
  if 'A' ≤ c ∧ c ≤ 'Z' then Char.ofNat (c.toNat + 32) else c

/-- Model of JavaScript `String.prototype.toLowerCase` on the ASCII subset. -/
def strToLower (s : String) : String :=
  String.mk (s.data.map charToLower)

/-- Shallow embedding of `DevPilotAgent.getErrorContext`
(src/core/agent.ts:435-474): substring heuristics over the lowercased error
message, with two tool-specific branches; `none` models the `return null`. -/
def getErrorContext (errorMessage0 : String) (toolCall : ToolCall) : Option String :=
  let errorMessage := strToLower errorMessage0
  if strContains errorMessage "file not found" || strContains errorMessage "no such file" then
    some "The file path may be incorrect. Try using list_files first to see available files."
  else if strContains errorMessage "permission denied" || strContains errorMessage "access denied" then
    some "Permission denied. Check file permissions or try a different path."
  else if strContains errorMessage "is not a directory" || strContains errorMessage "not a directory" then
    some "The specified path is not a directory. Use list_files to check the path type."
  else if strContains errorMessage "command not found" then
    some "The command is not available. Check if the required tool is installed."
  else if toolCall.function.name = "code_search" && strContains errorMessage "no matches found" then
    some "No matches found for the search pattern. Try a different pattern or check the file type."
  else if toolCall.function.name = "edit_file" && strContains errorMessage "old_str not found" then
    some "The text to replace was not found. Check the exact text and try reading the file first."
  else if toolCall.function.name = "edit_file" && strContains errorMessage "found multiple times" then
    some "The text appears multiple times. Provide more context to make it unique."
  else
    none

/-- Behaviour of one actual `tool.function(args)` invocation, as a function of
the tool call being executed (error = the thrown message). -/
abbrev ToolRun := ToolCall → Except String String

/-- One parsed `client.chat` response: its text and its tool calls
(`parseGeminiResponse` output, which never carries tool results). -/
structure ChatResponse where
  content : String
  toolCalls : List ToolCall
deriving Repr

/-- GeminiMessage the agent receives from `client.chat`: role assistant, with
`toolCalls` set only when nonempty, mirroring `parseGeminiResponse`. -/
def ChatResponse.toMessage (r : ChatResponse) : GeminiMessage :=
  { role := Role.assistant
    content := r.content
    toolCalls := if r.toolCalls.length > 0 then some r.toolCalls else none
    toolResults := none }

/-- Consumes the next transport response.  The model covers runs in which the
transport succeeds; an exhausted stream behaves as an empty response. -/
def consumeChat (chats : List ChatResponse) : ChatResponse × List ChatResponse :=
  match chats with
  | [] => ({ content := "", toolCalls := [] }, [])
  | c :: rest => (c, rest)

/-- Shallow embedding of `DevPilotAgent.executeTool` (src/core/agent.ts:372):
looks the tool up by name (throwing the tool-not-found error on a miss, without
invoking anything) and otherwise invokes it, consuming the next `toolRuns`
oracle entry; a successful run yields a ToolResult with no `is_error` field. -/
def executeTool (toolRuns : List ToolRun) (toolCall : ToolCall) :
    Except String ToolResult × List ToolRun :=
  if toolNames.contains toolCall.function.name then
    match toolRuns with
    | [] => (Except.error "Tool execution failed with unknown error", [])
    | f :: rest =>
      match f toolCall with
      | Except.ok content =>
        (Except.ok { tool_call_id := toolCall.id, content := content, is_error := none }, rest)
      | Except.error e => (Except.error e, rest)
  else
    (Except.error ("Tool \x27" ++ toolCall.function.name ++ "\x27 not found"), toolRuns)

/-- Retry bound of the tool-execution loop (`const maxAttempts = 3`). -/
def maxAttempts : Nat := 3

/-- ToolResult pushed by the dead-code fallback `if (result) … else` branch
(reachable only if the while loop could exit without setting a result). -/
def fallbackResult (toolCall : ToolCall) : ToolResult :=
  { tool_call_id := toolCall.id
    content := "Tool execution failed with unknown error"
    is_error := some true }

/-- Synthetic assistant message pushed before a correction call
(`Tool execution failed: ${error.message}. ${errorContext}`). -/
def mkHint (e errorContext : String) : GeminiMessage :=
  { role := Role.assistant
    content := "Tool execution failed: " ++ e ++ ". " ++ errorContext
    toolCalls := none
    toolResults := none }

/-- Outcome of the per-tool-call retry loop: the recorded result, the updated
conversation and oracle streams, plus (for the statements) how many times the
tool was actually invoked and which synthetic messages were injected. -/
structure AttemptOut where
  result : ToolResult
  conv : List GeminiMessage
  toolRuns : List ToolRun
  chats : List ChatResponse
  attemptsUsed : Nat
  injected : List GeminiMessage

/-- Shallow embedding of the `while (attempts < maxAttempts)` retry loop of
`DevPilotAgent.processMessage` (src/core/agent.ts:279-333), as a recursion on
the remaining attempts (`remaining = maxAttempts - attempts` at loop entry).
On success the result records the tool output; on the final failed attempt an
`is_error` result mentioning the attempt count is recorded; on a non-final
failure, only when `getErrorContext` yields a hint, the hint message is pushed
and one extra `client.chat` correction call is made whose response is only
displayed — the retry always re-invokes the original tool call. -/
def attemptLoop (toolCall : ToolCall) :
    Nat → List GeminiMessage → List ToolRun → List ChatResponse → AttemptOut
  | 0, conv, toolRuns, chats =>
    { result := fallbackResult toolCall, conv := conv, toolRuns := toolRuns, chats := chats
      attemptsUsed := 0, injected := [] }
  | remaining + 1, conv, toolRuns, chats =>
    let toolRuns' := (executeTool toolRuns toolCall).2
    match (executeTool toolRuns toolCall).1 with
    | Except.ok result =>
      { result := result, conv := conv, toolRuns := toolRuns', chats := chats
        attemptsUsed := 1, injected := [] }
    | Except.error e =>
      if remaining = 0 then
        { result := { tool_call_id := toolCall.id
                      content := "Error after " ++ toString maxAttempts ++ " attempts: " ++ e
                      is_error := some true }
          conv := conv, toolRuns := toolRuns', chats := chats
          attemptsUsed := 1, injected := [] }
      else
        match getErrorContext e toolCall with
        | some errorContext =>
          let hint := mkHint e errorContext
          let conv' := conv ++ [hint]
          let chats' := (consumeChat chats).2
          let rest := attemptLoop toolCall remaining conv' toolRuns' chats'
          { rest with attemptsUsed := rest.attemptsUsed + 1, injected := hint :: rest.injected }
        | none =>
          let rest := attemptLoop toolCall remaining conv toolRuns' chats
          { rest with attemptsUsed := rest.attemptsUsed + 1 }

/-- Outcome of executing all tool calls of one model message. -/
structure ToolPhaseOut where
  results : List ToolResult
  conv : List GeminiMessage
  toolRuns : List ToolRun
  chats : List ChatResponse

/-- Shallow embedding of the `for (const toolCall of response.toolCalls)` loop
(src/core/agent.ts:274-346): each call runs through the retry loop and its
result is pushed in order. -/
def execToolCalls :
    List ToolCall → List GeminiMessage → List ToolRun → List ChatResponse → ToolPhaseOut
  | [], conv, toolRuns, chats => { results := [], conv := conv, toolRuns := toolRuns, chats := chats }
  | toolCall :: rest, conv, toolRuns, chats =>
    let a := attemptLoop toolCall maxAttempts conv toolRuns chats
    let r := execToolCalls rest a.conv a.toolRuns a.chats
    { results := a.result :: r.results, conv := r.conv, toolRuns := r.toolRuns, chats := r.chats }

/-- Assistant message carrying one turn's tool results
(`{role: 'assistant', content: '', toolResults}`). -/
def toolResultsMessage (results : List ToolResult) : GeminiMessage :=
  { role := Role.assistant, content := "", toolCalls := none, toolResults := some results }

/-- Shallow embedding of the `while (true)` turn loop of
`DevPilotAgent.processMessage` (src/core/agent.ts:233-363): request a model
response (on the window-limited transcript), append it, stop when it carries
no tool calls, otherwise execute the tool calls, append the tool-results
message and iterate.  `fuel` bounds the number of model turns considered. -/
def turnLoop :
    Nat → List GeminiMessage → List ChatResponse → List ToolRun → List GeminiMessage
  | 0, conv, _, _ => conv
  | fuel + 1, conv, chats, toolRuns =>
    let resp := (consumeChat chats).1
    let chats' := (consumeChat chats).2
    let response := resp.toMessage
    let conv' := conv ++ [response]
    match response.toolCalls with
    | none => conv'
    | some toolCalls =>
      if toolCalls.length = 0 then conv'
      else
        let p := execToolCalls toolCalls conv' toolRuns chats'
        turnLoop fuel (p.conv ++ [toolResultsMessage p.results]) p.chats p.toolRuns

/-- User message appended at the start of `processMessage`. -/
def userMessage (userInput : String) : GeminiMessage :=
  { role := Role.user, content := userInput, toolCalls := none, toolResults := none }

/-- Shallow embedding of `DevPilotAgent.processMessage` (src/core/agent.ts:222):
append the user message, then run the turn loop. -/
def processMessage (conv : List GeminiMessage) (userInput : String) (fuel : Nat)
    (chats : List ChatResponse) (toolRuns : List ToolRun) : List GeminiMessage :=
  turnLoop fuel (conv ++ [userMessage userInput]) chats toolRuns

/-- Shallow embedding of `DevPilotAgent.sendMessage` (src/core/agent.ts:408):
append the user message and one model response. -/
def sendMessage (conv : List GeminiMessage) (message : String) (chats : List ChatResponse) :
    List GeminiMessage × GeminiMessage :=
  let conv' := conv ++ [userMessage message]
  let resp := (consumeChat chats).1
  (conv' ++ [resp.toMessage], resp.toMessage)

/-- Shallow embedding of `DevPilotAgent.clearConversation` (src/core/agent.ts:427):
the transcript is reset to just the system message. -/
def clearConversation (systemPrompt : String) : List GeminiMessage :=
  [{ role := Role.system, content := systemPrompt, toolCalls := none, toolResults := none }]

/-! ## Structural lemmas about the retry loop -/

theorem executeTool_ok_id {toolRuns : List ToolRun} {toolCall : ToolCall} {result : ToolResult}
    (h : (executeTool toolRuns toolCall).1 = Except.ok result) :
    result.tool_call_id = toolCall.id := by
  by_cases hn : toolCall.function.name ∈ toolNames
  · cases toolRuns with
    | nil => simp [executeTool, hn] at h
    | cons f rest =>
      cases hf : f toolCall with
      | ok c =>
        simp [executeTool, hn, hf] at h
        rw [← h]
      | error e => simp [executeTool, hn, hf] at h
  · simp [executeTool, hn] at h

theorem attemptLoop_conv (toolCall : ToolCall) (r : Nat) (conv : List GeminiMessage)
    (toolRuns : List ToolRun) (chats : List ChatResponse) :
    (attemptLoop toolCall r conv toolRuns chats).conv =
      conv ++ (attemptLoop toolCall r conv toolRuns chats).injected := by
  induction r generalizing conv toolRuns chats with
  | zero => simp [attemptLoop]
  | succ n ih =>
    simp only [attemptLoop]
    split
    · simp
    · split
      · simp
      · split
        · rw [ih]
          simp
        · exact ih ..

theorem attemptLoop_injected_plain (toolCall : ToolCall) (r : Nat) (conv : List GeminiMessage)
    (toolRuns : List ToolRun) (chats : List ChatResponse) :
    ∀ m ∈ (attemptLoop toolCall r conv toolRuns chats).injected,
      m.toolCalls = none ∧ m.toolResults = none := by
  induction r generalizing conv toolRuns chats with
  | zero => simp [attemptLoop]
  | succ n ih =>
    simp only [attemptLoop]
    split
    · simp
    · split
      · simp
      · split
        · intro m hm
          rcases List.mem_cons.mp hm with h | h
          · subst h; exact ⟨rfl, rfl⟩
          · exact ih _ _ _ m h
        · exact ih _ _ _

theorem attemptLoop_result_id (toolCall : ToolCall) (r : Nat) (conv : List GeminiMessage)
    (toolRuns : List ToolRun) (chats : List ChatResponse) :
    (attemptLoop toolCall r conv toolRuns chats).result.tool_call_id = toolCall.id := by
  induction r generalizing conv toolRuns chats with
  | zero => rfl
  | succ n ih =>
    simp only [attemptLoop]
    split
    · rename_i result hE
      exact executeTool_ok_id hE
    · split
      · rfl
      · split
        · exact ih ..
        · exact ih ..

theorem attemptLoop_attempts_le (toolCall : ToolCall) (r : Nat) (conv : List GeminiMessage)
    (toolRuns : List ToolRun) (chats : List ChatResponse) :
    (attemptLoop toolCall r conv toolRuns chats).attemptsUsed ≤ r := by
  induction r generalizing conv toolRuns chats with
  | zero => exact Nat.le_refl 0
  | succ n ih =>
    simp only [attemptLoop]
    split
    · exact Nat.succ_le_succ (Nat.zero_le n)
    · split
      · exact Nat.succ_le_succ (Nat.zero_le n)
      · split
        · exact Nat.succ_le_succ (ih ..)
        · exact Nat.succ_le_succ (ih ..)

/-! ## Claim C3: three attempts, then an error result, and the loop moves on -/

theorem attemptLoop_allfail (tc : ToolCall) (conv : List GeminiMessage)
    (f1 f2 f3 : ToolRun) (ts : List ToolRun) (cs : List ChatResponse) (e1 e2 e3 : String)
    (hname : tc.function.name ∈ toolNames)
    (h1 : f1 tc = Except.error e1) (h2 : f2 tc = Except.error e2)
    (h3 : f3 tc = Except.error e3) :
    ∃ injected chats2,
      attemptLoop tc maxAttempts conv (f1 :: f2 :: f3 :: ts) cs =
        { result := { tool_call_id := tc.id
                      content := "Error after 3 attempts: " ++ e3
                      is_error := some true }
          conv := conv ++ injected, toolRuns := ts, chats := chats2
          attemptsUsed := 3, injected := injected } ∧
      ∀ m ∈ injected, m.toolCalls = none ∧ m.toolResults = none := by
  have hstr : "Error after " ++ toString maxAttempts ++ " attempts: " =
      "Error after 3 attempts: " := rfl
  cases hc1 : getErrorContext e1 tc with
  | none =>
    cases hc2 : getErrorContext e2 tc with
    | none =>
      refine ⟨[], cs, ?_, by simp⟩
      simp [maxAttempts, attemptLoop, executeTool, hname, h1, h2, h3, hc1, hc2, ← hstr]
    | some ctx2 =>
      refine ⟨[mkHint e2 ctx2], (consumeChat cs).2, ?_, ?_⟩
      · simp [maxAttempts, attemptLoop, executeTool, hname, h1, h2, h3, hc1, hc2, ← hstr]
      · intro m hm
        have hm2 : m = mkHint e2 ctx2 := by simpa using hm
        rw [hm2]
        exact ⟨rfl, rfl⟩
  | some ctx1 =>
    cases hc2 : getErrorContext e2 tc with
    | none =>
      refine ⟨[mkHint e1 ctx1], (consumeChat cs).2, ?_, ?_⟩
      · simp [maxAttempts, attemptLoop, executeTool, hname, h1, h2, h3, hc1, hc2, ← hstr]
      · intro m hm
        have hm2 : m = mkHint e1 ctx1 := by simpa using hm
        rw [hm2]
        exact ⟨rfl, rfl⟩
    | some ctx2 =>
      refine ⟨[mkHint e1 ctx1, mkHint e2 ctx2], (consumeChat (consumeChat cs).2).2, ?_, ?_⟩
      · simp [maxAttempts, attemptLoop, executeTool, hname, h1, h2, h3, hc1, hc2, ← hstr]
      · intro m hm
        rcases List.mem_cons.mp hm with hm2 | hm2
        · rw [hm2]
          exact ⟨rfl, rfl⟩
        · have hm3 : m = mkHint e2 ctx2 := by simpa using hm2
          rw [hm3]
          exact ⟨rfl, rfl⟩

theorem execToolCalls_conv (tcs : List ToolCall) (conv : List GeminiMessage)
    (toolRuns : List ToolRun) (chats : List ChatResponse) :
    ∃ t, (execToolCalls tcs conv toolRuns chats).conv = conv ++ t := by
  induction tcs generalizing conv toolRuns chats with
  | nil => exact ⟨[], by simp [execToolCalls]⟩
  | cons tc rest ih =>
    simp only [execToolCalls]
    obtain ⟨t1, h1⟩ := ih (attemptLoop tc maxAttempts conv toolRuns chats).conv
      (attemptLoop tc maxAttempts conv toolRuns chats).toolRuns
      (attemptLoop tc maxAttempts conv toolRuns chats).chats
    refine ⟨(attemptLoop tc maxAttempts conv toolRuns chats).injected ++ t1, ?_⟩
    rw [h1, attemptLoop_conv, List.append_assoc]

theorem turnLoop_one (conv : List GeminiMessage) (chats : List ChatResponse)
    (toolRuns : List ToolRun) :
    ∃ tail, turnLoop 1 conv chats toolRuns =
      (conv ++ [((consumeChat chats).1).toMessage]) ++ tail := by
  simp only [turnLoop]
  split
  · exact ⟨[], by simp⟩
  · split
    · exact ⟨[], by simp⟩
    · rename_i toolCalls hsome hlen
      obtain ⟨t2, h2⟩ := execToolCalls_conv toolCalls
        (conv ++ [((consumeChat chats).1).toMessage]) toolRuns (consumeChat chats).2
      refine ⟨t2 ++ [toolResultsMessage (execToolCalls toolCalls
        (conv ++ [((consumeChat chats).1).toMessage]) toolRuns (consumeChat chats).2).results], ?_⟩
      rw [h2]
      simp [List.append_assoc]

/-- Claim C3: each tool call is attempted at most 3 times; when all three
invocations fail — for EVERY error text, whether or not it matches a
self-correction heuristic — the recorded ToolResult is an error result whose
content mentions the attempt count (`Error after 3 attempts: …`), exactly the
three oracle entries of that call are consumed (no further retry), and the
turn loop appends the tool-results message (after any injected hint messages)
and proceeds to the next model request without throwing: the message right
after the results message is the next consumed model response. -/
theorem tool_failure_exhausts_three_attempts
    (tc : ToolCall) (conv : List GeminiMessage) (f1 f2 f3 : ToolRun)
    (ts : List ToolRun) (cs : List ChatResponse) (e1 e2 e3 : String)
    (hname : tc.function.name ∈ toolNames)
    (h1 : f1 tc = Except.error e1) (h2 : f2 tc = Except.error e2)
    (h3 : f3 tc = Except.error e3) :
    (∀ conv0 ts0 cs0, (attemptLoop tc maxAttempts conv0 ts0 cs0).attemptsUsed ≤ maxAttempts) ∧
    (attemptLoop tc maxAttempts conv (f1 :: f2 :: f3 :: ts) cs).result =
      { tool_call_id := tc.id
        content := "Error after 3 attempts: " ++ e3
        is_error := some true } ∧
    (attemptLoop tc maxAttempts conv (f1 :: f2 :: f3 :: ts) cs).attemptsUsed = 3 ∧
    (attemptLoop tc maxAttempts conv (f1 :: f2 :: f3 :: ts) cs).toolRuns = ts ∧
    (∀ userInput c1 cs2, ∃ injected nextResp tail,
      processMessage conv userInput 2 ({ content := c1, toolCalls := [tc] } :: cs2)
          (f1 :: f2 :: f3 :: ts) =
        conv ++ [userMessage userInput,
            ChatResponse.toMessage { content := c1, toolCalls := [tc] }] ++ injected ++
          [toolResultsMessage [{ tool_call_id := tc.id
                                 content := "Error after 3 attempts: " ++ e3
                                 is_error := some true }],
            ChatResponse.toMessage nextResp] ++ tail ∧
      ∀ m ∈ injected, m.toolCalls = none ∧ m.toolResults = none) := by
  obtain ⟨inj0, ch0, heq0, _⟩ :=
    attemptLoop_allfail tc conv f1 f2 f3 ts cs e1 e2 e3 hname h1 h2 h3
  refine ⟨fun conv0 ts0 cs0 => attemptLoop_attempts_le .., by rw [heq0], by rw [heq0],
    by rw [heq0], ?_⟩
  intro userInput c1 cs2
  obtain ⟨inj1, ch1, heq1, hplain1⟩ := attemptLoop_allfail tc
    (conv ++ [userMessage userInput,
      { role := Role.assistant, content := c1, toolCalls := some [tc], toolResults := none }])
    f1 f2 f3 ts cs2 e1 e2 e3 hname h1 h2 h3
  obtain ⟨tail0, htail⟩ := turnLoop_one
    (((conv ++ [userMessage userInput,
        { role := Role.assistant, content := c1, toolCalls := some [tc],
          toolResults := none }]) ++ inj1) ++
      [toolResultsMessage [{ tool_call_id := tc.id
                             content := "Error after 3 attempts: " ++ e3
                             is_error := some true }]]) ch1 ts
  refine ⟨inj1, (consumeChat ch1).1, tail0, ?_, hplain1⟩
  have hstep : processMessage conv userInput 2
      ({ content := c1, toolCalls := [tc] } :: cs2) (f1 :: f2 :: f3 :: ts) =
      turnLoop 1
        (((conv ++ [userMessage userInput,
            { role := Role.assistant, content := c1, toolCalls := some [tc],
              toolResults := none }]) ++ inj1) ++
          [toolResultsMessage [{ tool_call_id := tc.id
                                 content := "Error after 3 attempts: " ++ e3
                                 is_error := some true }]]) ch1 ts := by
    simp [processMessage, turnLoop, consumeChat, ChatResponse.toMessage, execToolCalls, heq1,
      toolResultsMessage]
  rw [hstep, htail]
  simp [ChatResponse.toMessage, List.append_assoc]

theorem tool_failure_exhausts_three_attempts_witness :
    "read_file" ∈ toolNames ∧
    (attemptLoop { id := "call_1", type := "function",
                   function := { name := "read_file", arguments := Json.obj [] } }
        maxAttempts [] [fun _ => Except.error "file not found",
                        fun _ => Except.error "file not found",
                        fun _ => Except.error "file not found"] []).result =
      { tool_call_id := "call_1", content := "Error after 3 attempts: " ++ "file not found",
        is_error := some true } := by
  refine ⟨by decide, ?_⟩
  exact (tool_failure_exhausts_three_attempts
    { id := "call_1", type := "function",
      function := { name := "read_file", arguments := Json.obj [] } }
    [] (fun _ => Except.error "file not found") (fun _ => Except.error "file not found")
    (fun _ => Except.error "file not found")
    [] [] "file not found" "file not found" "file not found" (by decide) rfl rfl rfl).2.1

/-! ## Claim C5: retry hints and non-substitution of corrected arguments -/

/-- Concrete tool call for the C5 counterexample. -/
def c5ToolCall : ToolCall :=
  { id := "call_c5", type := "function"
    function := { name := "read_file", arguments := Json.obj [] } }

/-- Tool oracle for the C5 counterexample: the first invocation throws an error
matching none of the heuristic patterns, the second succeeds. -/
def c5Runs : List ToolRun :=
  [fun _ => Except.error "boom", fun _ => Except.ok "done"]

/-- Counterexample to claim C5: a tool invocation that fails on a non-final
attempt with an error (`"boom"`) matching no heuristic pattern injects NO
synthetic assistant message and issues NO extra model call — the retry happens
silently, contradicting the claim that every non-final failure appends a
hint message and an extra model call. -/
theorem retry_hint_counterexample :
    (attemptLoop c5ToolCall maxAttempts [] c5Runs []).attemptsUsed = 2 ∧
    (attemptLoop c5ToolCall maxAttempts [] c5Runs []).injected = [] ∧
    (attemptLoop c5ToolCall maxAttempts [] c5Runs []).conv = [] ∧
    (attemptLoop c5ToolCall maxAttempts [] c5Runs []).result.isError = false :=
  ⟨rfl, rfl, rfl, rfl⟩

/-- Claim C5 as amended: when a tool invocation fails on a non-final attempt
AND the error text matches one of the heuristic patterns, one synthetic
assistant hint message is appended and one extra model call is issued, whose
returned tool call is never substituted — the retry re-invokes the original
tool call (observable here: the later oracle entries are applied to the
original `tc`).  When no pattern matches, nothing is appended and no extra
call is made.  Consequently a call failing twice with "file not found" and
succeeding on the third attempt yields a final ToolResult with
`is_error` falsy and exactly 2 injected hint messages. -/
theorem retry_hint_injection
    (tc : ToolCall) (conv : List GeminiMessage) (ts : List ToolRun)
    (cs : List ChatResponse) (hname : tc.function.name ∈ toolNames) :
    (∀ f1 e ctx (hf : f1 tc = Except.error e) (hctx : getErrorContext e tc = some ctx),
      ∃ tl, (attemptLoop tc maxAttempts conv (f1 :: ts) cs).injected = mkHint e ctx :: tl) ∧
    (∀ f1 f2 e s (hf : f1 tc = Except.error e) (hctx : getErrorContext e tc = none)
        (hs : f2 tc = Except.ok s),
      attemptLoop tc maxAttempts conv (f1 :: f2 :: ts) cs =
        { result := { tool_call_id := tc.id, content := s, is_error := none }
          conv := conv, toolRuns := ts, chats := cs, attemptsUsed := 2, injected := [] }) ∧
    (∀ k1 k2 f3 s c1 c2 (hk1 : k1 tc = Except.error "file not found")
        (hk2 : k2 tc = Except.error "file not found") (hs : f3 tc = Except.ok s),
      (attemptLoop tc maxAttempts conv (k1 :: k2 :: f3 :: ts) (c1 :: c2 :: cs)).result =
          { tool_call_id := tc.id, content := s, is_error := none } ∧
      (attemptLoop tc maxAttempts conv (k1 :: k2 :: f3 :: ts) (c1 :: c2 :: cs)).injected =
          [mkHint "file not found"
             "The file path may be incorrect. Try using list_files first to see available files.",
           mkHint "file not found"
             "The file path may be incorrect. Try using list_files first to see available files."] ∧
      (attemptLoop tc maxAttempts conv (k1 :: k2 :: f3 :: ts) (c1 :: c2 :: cs)).chats = cs ∧
      (attemptLoop tc maxAttempts conv (k1 :: k2 :: f3 :: ts) (c1 :: c2 :: cs)).attemptsUsed = 3) := by
  have hfnf : getErrorContext "file not found" tc =
      some "The file path may be incorrect. Try using list_files first to see available files." := by
    simp [getErrorContext, strToLower, strContains, charToLower, listContainsSub, listIsPrefixOf]
  refine ⟨?_, ?_, ?_⟩
  · intro f1 e ctx hf hctx
    refine ⟨(attemptLoop tc 2 (conv ++ [mkHint e ctx]) ts (consumeChat cs).2).injected, ?_⟩
    simp [maxAttempts, attemptLoop, executeTool, hname, hf, hctx]
  · intro f1 f2 e s hf hctx hs
    simp [maxAttempts, attemptLoop, executeTool, hname, hf, hctx, hs]
  · intro k1 k2 f3 s c1 c2 hk1 hk2 hs
    simp [maxAttempts, attemptLoop, executeTool, hname, hk1, hk2, hs, hfnf, consumeChat, mkHint]

theorem retry_hint_injection_witness :
    attemptLoop c5ToolCall maxAttempts [] (c5Runs ++ []) [] =
      { result := { tool_call_id := c5ToolCall.id, content := "done", is_error := none }
        conv := [], toolRuns := [], chats := [], attemptsUsed := 2, injected := [] } :=
  (retry_hint_injection c5ToolCall [] [] [] (by decide)).2.1
    (fun _ => Except.error "boom") (fun _ => Except.ok "done") "boom" "done"
    rfl (by decide) rfl

/-! ## Claim C8: the transcript is append-only -/

theorem turnLoop_extends (fuel : Nat) (conv : List GeminiMessage)
    (chats : List ChatResponse) (toolRuns : List ToolRun) :
    ∃ t, turnLoop fuel conv chats toolRuns = conv ++ t := by
  induction fuel generalizing conv chats toolRuns with
  | zero => exact ⟨[], by simp [turnLoop]⟩
  | succ n ih =>
    simp only [turnLoop]
    split
    · exact ⟨_, rfl⟩
    · split
      · exact ⟨_, rfl⟩
      · rename_i toolCalls hsome hlen
        obtain ⟨t2, h2⟩ := execToolCalls_conv toolCalls
          (conv ++ [((consumeChat chats).1).toMessage]) toolRuns (consumeChat chats).2
        obtain ⟨t3, h3⟩ := ih ((execToolCalls toolCalls
            (conv ++ [((consumeChat chats).1).toMessage]) toolRuns (consumeChat chats).2).conv ++
            [toolResultsMessage (execToolCalls toolCalls
              (conv ++ [((consumeChat chats).1).toMessage]) toolRuns (consumeChat chats).2).results])
          (execToolCalls toolCalls (conv ++ [((consumeChat chats).1).toMessage]) toolRuns
            (consumeChat chats).2).chats
          (execToolCalls toolCalls (conv ++ [((consumeChat chats).1).toMessage]) toolRuns
            (consumeChat chats).2).toolRuns
        rw [h3, h2]
        refine ⟨[((consumeChat chats).1).toMessage] ++ t2 ++
          [toolResultsMessage (execToolCalls toolCalls
            (conv ++ [((consumeChat chats).1).toMessage]) toolRuns (consumeChat chats).2).results] ++ t3, ?_⟩
        simp [List.append_assoc]

/-- Claim C8: every transcript-touching operation of the agent other than the
explicit clear (`processMessage` in all its turns, and `sendMessage`) only
appends: the input transcript is a prefix of the output transcript, so its
length can only grow and no existing message is changed. -/
theorem transcript_append_only :
    (∀ (conv : List GeminiMessage) userInput fuel chats toolRuns,
      ∃ t, processMessage conv userInput fuel chats toolRuns = conv ++ t) ∧
    (∀ (conv : List GeminiMessage) message chats,
      ∃ t, (sendMessage conv message chats).1 = conv ++ t) := by
  constructor
  · intro conv userInput fuel chats toolRuns
    obtain ⟨t, ht⟩ := turnLoop_extends fuel (conv ++ [userMessage userInput]) chats toolRuns
    exact ⟨[userMessage userInput] ++ t, by rw [processMessage, ht, List.append_assoc]⟩
  · intro conv message chats
    exact ⟨[userMessage message, ((consumeChat chats).1).toMessage], by simp [sendMessage]⟩

/-! ## Claim C7: tool results correlate with tool calls, no orphaned ids -/

/-- Ids of the tool calls carried by one message. -/
def callIds (m : GeminiMessage) : List String :=
  (m.toolCalls.getD []).map ToolCall.id

/-- Ids referenced by the tool results carried by one message. -/
def resultIds (m : GeminiMessage) : List String :=
  (m.toolResults.getD []).map ToolResult.tool_call_id

/-- Ids of all tool calls in a transcript, in order. -/
def allCallIds : List GeminiMessage → List String
  | [] => []
  | m :: rest => callIds m ++ allCallIds rest

/-- Scans a transcript left to right, `seen` being the tool-call ids issued so
far, and checks that every tool result references a tool-call id from the same
or an earlier message. -/
def okFrom (seen : List String) : List GeminiMessage → Bool
  | [] => true
  | m :: rest =>
    (resultIds m).all (fun rid => (seen ++ callIds m).contains rid) &&
      okFrom (seen ++ callIds m) rest

/-- Transcript invariant: no tool result references an orphaned id. -/
def okTranscript (conv : List GeminiMessage) : Bool :=
  okFrom [] conv

theorem allCallIds_append (xs ys : List GeminiMessage) :
    allCallIds (xs ++ ys) = allCallIds xs ++ allCallIds ys := by
  induction xs with
  | nil => simp [allCallIds]
  | cons x xs ih => simp [allCallIds, ih]

theorem okFrom_append (seen : List String) (xs ys : List GeminiMessage) :
    okFrom seen (xs ++ ys) =
      (okFrom seen xs && okFrom (seen ++ allCallIds xs) ys) := by
  induction xs generalizing seen with
  | nil => simp [okFrom, allCallIds]
  | cons x xs ih =>
    simp [okFrom, allCallIds, ih, Bool.and_assoc, List.append_assoc]

theorem okFrom_plain (seen : List String) (t : List GeminiMessage)
    (h : ∀ m ∈ t, m.toolCalls = none ∧ m.toolResults = none) :
    okFrom seen t = true ∧ allCallIds t = [] := by
  induction t generalizing seen with
  | nil => exact ⟨rfl, rfl⟩
  | cons m rest ih =>
    obtain ⟨hc, hr⟩ := h m (List.mem_cons_self ..)
    have ihr := ih (seen ++ callIds m) (fun m hm => h m (List.mem_cons_of_mem _ hm))
    constructor
    · simp [okFrom, resultIds, hr, ihr.1]
    · simp [allCallIds, callIds, hc, ihr.2]

theorem execToolCalls_results_ids (tcs : List ToolCall) (conv : List GeminiMessage)
    (toolRuns : List ToolRun) (chats : List ChatResponse) :
    (execToolCalls tcs conv toolRuns chats).results.map ToolResult.tool_call_id =
      tcs.map ToolCall.id := by
  induction tcs generalizing conv toolRuns chats with
  | nil => rfl
  | cons tc rest ih =>
    simp only [execToolCalls, List.map_cons, List.map]
    rw [attemptLoop_result_id, ih]

theorem execToolCalls_conv_plain (tcs : List ToolCall) (conv : List GeminiMessage)
    (toolRuns : List ToolRun) (chats : List ChatResponse) :
    ∃ t, (execToolCalls tcs conv toolRuns chats).conv = conv ++ t ∧
      ∀ m ∈ t, m.toolCalls = none ∧ m.toolResults = none := by
  induction tcs generalizing conv toolRuns chats with
  | nil => exact ⟨[], by simp [execToolCalls], by simp⟩
  | cons tc rest ih =>
    simp only [execToolCalls]
    obtain ⟨t1, h1, hp1⟩ := ih (attemptLoop tc maxAttempts conv toolRuns chats).conv
      (attemptLoop tc maxAttempts conv toolRuns chats).toolRuns
      (attemptLoop tc maxAttempts conv toolRuns chats).chats
    refine ⟨(attemptLoop tc maxAttempts conv toolRuns chats).injected ++ t1, ?_, ?_⟩
    · rw [h1, attemptLoop_conv, List.append_assoc]
    · intro m hm
      rcases List.mem_append.mp hm with h | h
      · exact attemptLoop_injected_plain tc maxAttempts conv toolRuns chats m h
      · exact hp1 m h

theorem okFrom_block (s : List String) (resp : GeminiMessage) (t : List GeminiMessage)
    (results : List ToolResult)
    (hresp : resultIds resp = [])
    (hplain : ∀ m ∈ t, m.toolCalls = none ∧ m.toolResults = none)
    (hres : ∀ rid ∈ results.map ToolResult.tool_call_id, rid ∈ callIds resp) :
    okFrom s (resp :: (t ++ [toolResultsMessage results])) = true := by
  simp only [okFrom, hresp, List.all_nil, Bool.true_and]
  rw [okFrom_append, Bool.and_eq_true]
  obtain ⟨hq1, hq2⟩ := okFrom_plain (s ++ callIds resp) t hplain
  refine ⟨hq1, ?_⟩
  simp only [okFrom, Bool.and_true, hq2, List.append_nil]
  rw [List.all_eq_true]
  intro rid hrid
  apply List.elem_eq_true_of_mem
  have hmem : rid ∈ callIds resp := by
    apply hres
    simpa [resultIds, toolResultsMessage] using hrid
  have hcnil : callIds (toolResultsMessage results) = [] := rfl
  rw [hcnil, List.append_nil]
  exact List.mem_append_right s hmem

theorem turnLoop_ok (fuel : Nat) :
    ∀ (conv : List GeminiMessage) (chats : List ChatResponse) (toolRuns : List ToolRun)
      (seen : List String), okFrom seen conv = true →
      okFrom seen (turnLoop fuel conv chats toolRuns) = true := by
  induction fuel with
  | zero =>
    intro conv chats toolRuns seen h
    simpa [turnLoop] using h
  | succ n ih =>
    intro conv chats toolRuns seen h
    simp only [turnLoop]
    split
    · rw [okFrom_append, Bool.and_eq_true]
      refine ⟨h, ?_⟩
      simp [okFrom, resultIds, ChatResponse.toMessage]
    · split
      · rw [okFrom_append, Bool.and_eq_true]
        refine ⟨h, ?_⟩
        simp [okFrom, resultIds, ChatResponse.toMessage]
      · rename_i toolCalls hsome hlen
        apply ih
        obtain ⟨t, ht, hplain⟩ := execToolCalls_conv_plain toolCalls
          (conv ++ [((consumeChat chats).1).toMessage]) toolRuns (consumeChat chats).2
        rw [ht, List.append_assoc, List.append_assoc]
        rw [okFrom_append, Bool.and_eq_true]
        refine ⟨h, ?_⟩
        have hstep : [((consumeChat chats).1).toMessage] ++ (t ++ [toolResultsMessage
            (execToolCalls toolCalls (conv ++ [((consumeChat chats).1).toMessage]) toolRuns
              (consumeChat chats).2).results]) =
            ((consumeChat chats).1).toMessage :: (t ++ [toolResultsMessage
            (execToolCalls toolCalls (conv ++ [((consumeChat chats).1).toMessage]) toolRuns
              (consumeChat chats).2).results]) := rfl
        rw [hstep]
        apply okFrom_block
        · simp [resultIds, ChatResponse.toMessage]
        · exact hplain
        · intro rid hrid
          have hids := execToolCalls_results_ids toolCalls
            (conv ++ [((consumeChat chats).1).toMessage]) toolRuns (consumeChat chats).2
          rw [hids] at hrid
          simpa [callIds, hsome] using hrid

/-- Claim C7: in every turn, the recorded tool-result list has exactly the same
length as the model message's tool-call list, in the same order with
`result[i].tool_call_id = toolCalls[i].id`; and the whole conversation loop
preserves the transcript invariant that no tool result references an id that
is not the id of a tool call appearing in the same or an earlier message. -/
theorem tool_results_correlate
    (tcs : List ToolCall) (conv : List GeminiMessage) (toolRuns : List ToolRun)
    (chats : List ChatResponse) (fuel : Nat) (userInput : String)
    (h : okTranscript conv = true) :
    (execToolCalls tcs conv toolRuns chats).results.length = tcs.length ∧
    (execToolCalls tcs conv toolRuns chats).results.map ToolResult.tool_call_id =
      tcs.map ToolCall.id ∧
    okTranscript (processMessage conv userInput fuel chats toolRuns) = true := by
  refine ⟨?_, execToolCalls_results_ids .., ?_⟩
  · have := congrArg List.length (execToolCalls_results_ids tcs conv toolRuns chats)
    simpa using this
  · apply turnLoop_ok
    rw [okFrom_append, Bool.and_eq_true]
    refine ⟨h, ?_⟩
    simp [okFrom, resultIds, userMessage]

theorem tool_results_correlate_witness :
    okTranscript [] = true ∧
    (execToolCalls [c5ToolCall] [] c5Runs []).results.length = 1 ∧
    (execToolCalls [c5ToolCall] [] c5Runs []).results.map ToolResult.tool_call_id =
      [c5ToolCall].map ToolCall.id ∧
    okTranscript (processMessage [] "hi" 1 [{ content := "ok", toolCalls := [] }] c5Runs) = true :=
  ⟨rfl, tool_results_correlate [c5ToolCall] [] c5Runs [] 1 "hi" rfl⟩

/-! ## Model of the JavaScript builtin JSON.parse

The streaming parser calls `JSON.parse` on each buffered line.  The builtin is
external to the repository; it is modelled here by a recursive-descent parser
over the JSON grammar (numbers restricted to integers and string escapes to
the single-character ones, which covers everything the wire format carries). -/

/-- JSON (and JavaScript trim) whitespace characters. -/
def isWs (c : Char) : Bool :=
  c = ' ' || c = '\t' || c = '\n' || c = '\r'

def skipWs : List Char → List Char
  | [] => []
  | c :: rest => if isWs c then skipWs rest else c :: rest

/-- Decodes the body of a quoted string after the opening quote, handling the
single-character escapes. -/
def parseStringBody : Nat → List Char → Option (String × List Char)
  | 0, _ => none
  | _ + 1, [] => none
  | fuel + 1, c :: rest =>
    if c = '\"' then some ("", rest)
    else if c = '\\' then
      match rest with
      | [] => none
      | e :: rest2 =>
        let dec : Option Char :=
          if e = '\"' then some '\"'
          else if e = '\\' then some '\\'
          else if e = '/' then some '/'
          else if e = 'n' then some '\n'
          else if e = 't' then some '\t'
          else if e = 'r' then some '\r'
          else if e = 'b' then some (Char.ofNat 8)
          else if e = 'f' then some (Char.ofNat 12)
          else none
        match dec with
        | none => none
        | some d =>
          match parseStringBody fuel rest2 with
          | some (s, r) => some (String.mk (d :: s.data), r)
          | none => none
    else
      match parseStringBody fuel rest with
      | some (s, r) => some (String.mk (c :: s.data), r)
      | none => none

def parseDigits : List Char → List Char × List Char
  | [] => ([], [])
  | c :: rest =>
    if c.isDigit then
      let p := parseDigits rest
      (c :: p.1, p.2)
    else ([], c :: rest)

def digitsToNat (ds : List Char) : Nat :=
  ds.foldl (fun acc c => acc * 10 + (c.toNat - '0'.toNat)) 0

mutual

def parseValue : Nat → List Char → Option (Json × List Char)
  | 0, _ => none
  | fuel + 1, cs =>
    match skipWs cs with
    | [] => none
    | c :: rest =>
      if c = '\x7b' then
        match skipWs rest with
        | '\x7d' :: r2 => some (Json.obj [], r2)
        | r2 =>
          match parseMembers fuel r2 with
          | some (fields, r3) => some (Json.obj fields, r3)
          | none => none
      else if c = '[' then
        match skipWs rest with
        | ']' :: r2 => some (Json.arr [], r2)
        | r2 =>
          match parseElements fuel r2 with
          | some (elems, r3) => some (Json.arr elems, r3)
          | none => none
      else if c = '\"' then
        match parseStringBody (rest.length + 1) rest with
        | some (s, r2) => some (Json.str s, r2)
        | none => none
      else if c = 't' then
        match rest with
        | 'r' :: 'u' :: 'e' :: r2 => some (Json.bool true, r2)
        | _ => none
      else if c = 'f' then
        match rest with
        | 'a' :: 'l' :: 's' :: 'e' :: r2 => some (Json.bool false, r2)
        | _ => none
      else if c = 'n' then
        match rest with
        | 'u' :: 'l' :: 'l' :: r2 => some (Json.null, r2)
        | _ => none
      else if c = '-' then
        match parseDigits rest with
        | ([], _) => none
        | (ds, r2) => some (Json.num (-(Int.ofNat (digitsToNat ds))), r2)
      else if c.isDigit then
        match parseDigits (c :: rest) with
        | ([], _) => none
        | (ds, r2) => some (Json.num (Int.ofNat (digitsToNat ds)), r2)
      else none

def parseMembers : Nat → List Char → Option (List (String × Json) × List Char)
  | 0, _ => none
  | fuel + 1, cs =>
    match skipWs cs with
    | '\"' :: rest =>
      match parseStringBody (rest.length + 1) rest with
      | some (key, r2) =>
        match skipWs r2 with
        | ':' :: r3 =>
          match parseValue fuel r3 with
          | some (v, r4) =>
            match skipWs r4 with
            | ',' :: r5 =>
              match parseMembers fuel r5 with
              | some (fields, r6) => some ((key, v) :: fields, r6)
              | none => none
            | '\x7d' :: r5 => some ([(key, v)], r5)
            | _ => none
          | none => none
        | _ => none
      | none => none
    | _ => none

def parseElements : Nat → List Char → Option (List Json × List Char)
  | 0, _ => none
  | fuel + 1, cs =>
    match parseValue fuel cs with
    | some (v, r) =>
      match skipWs r with
      | ',' :: r2 =>
        match parseElements fuel r2 with
        | some (elems, r3) => some (v :: elems, r3)
        | none => none
      | ']' :: r2 => some ([v], r2)
      | _ => none
    | none => none

end

/-- Model of `JSON.parse` on one line: a full parse with no trailing
non-whitespace (the fuel is ample for any input of this length). -/
def jsonParse (line : List Char) : Option Json :=
  match parseValue (2 * line.length + 2) line with
  | some (v, rest) => if skipWs rest = [] then some v else none
  | none => none

/-- Model of JavaScript member access `j.key` (undefined on non-objects and
missing keys; the wire format carries no duplicate keys). -/
def Json.getField : Json → String → Option Json
  | Json.obj fields, key =>
    match fields.find? (fun f => f.1 = key) with
    | some f => some f.2
    | none => none
  | _, _ => none

/-- Model of `j[0]` on a parsed JSON array. -/
def jsonIndex0 : Json → Option Json
  | Json.arr (x :: _) => some x
  | _ => none

/-- Truthiness of a possibly-undefined JavaScript value. -/
def optTruthy : Option Json → Bool
  | none => false
  | some j => jsTruthy j

/-! ## Streaming parser of chatStream (src/core/gemini-client.ts:61-168) -/

/-- Model of the fresh id generation
`'call_' + Date.now() + '_' + Math.random().toString(36).substr(2, 9)`: the
nondeterministic suffix is supplied by the `gen` oracle, one entry per id. -/
def freshCallId (gen : Nat → String) (k : Nat) : String :=
  "call_" ++ gen k

/-- ToolCall built for one wire function-call part in the stream
(`functionCall.args || {}` defaults absent arguments to the empty object; a
non-string name — never produced by the wire — is modelled as `""`). -/
def streamToolCallOfPart (gen : Nat → String) (k : Nat) (fc : Json) : ToolCall :=
  { id := freshCallId gen k
    type := "function"
    function :=
      { name := match fc.getField "name" with
                | some (Json.str s) => s
                | _ => ""
        arguments := jsOr (fc.getField "args") (Json.obj []) } }

/-- Mutable state of the streaming loop: the running content accumulator, the
running tool-call list, the id-generation counter, and the messages yielded
so far. -/
structure StreamCore where
  currentContent : String
  currentToolCalls : List ToolCall
  counter : Nat
  yields : List GeminiMessage

/-- Message yielded by the stream (`toolCalls` attached only when nonempty). -/
def streamMessage (content : String) (toolCalls : List ToolCall) : GeminiMessage :=
  { role := Role.assistant
    content := content
    toolCalls := if toolCalls.length > 0 then some toolCalls else none
    toolResults := none }

/-- First half of the per-part handling (`if (part.text) …`): a truthy `text`
extends the accumulator and yields the cumulative message immediately. -/
def processPartText (st : StreamCore) (part : Json) : StreamCore :=
  if optTruthy (part.getField "text") then
    let t := match part.getField "text" with
             | some (Json.str s) => s
             | _ => ""
    let content := st.currentContent ++ t
    { st with currentContent := content
              yields := st.yields ++ [streamMessage content st.currentToolCalls] }
  else st

/-- Second half of the per-part handling (`if (part.functionCall) …`): a
truthy `functionCall` appends one freshly-id'd tool call. -/
def processPartCall (gen : Nat → String) (st : StreamCore) (part : Json) : StreamCore :=
  if optTruthy (part.getField "functionCall") then
    let fc := (part.getField "functionCall").getD Json.null
    { st with
        currentToolCalls := st.currentToolCalls ++ [streamToolCallOfPart gen st.counter fc]
        counter := st.counter + 1 }
  else st

/-- Handling of one element of `candidate.content.parts`: the two sequential
`if` statements of the source loop body. -/
def processPart (gen : Nat → String) (st : StreamCore) (part : Json) : StreamCore :=
  processPartCall gen (processPartText st part) part

/-- Handling of one buffered line (src/core/gemini-client.ts:101-148): blank
lines are skipped, invalid JSON is skipped silently, and a parsed object
contributes its first candidate's parts.  A truthy non-array `parts` would
make the source's `for..of` throw inside the try, skipping the chunk. -/
def processLine (gen : Nat → String) (st : StreamCore) (line : List Char) : StreamCore :=
  if line.all isWs then st
  else
    match jsonParse line with
    | none => st
    | some parsed =>
      if optTruthy (parsed.getField "candidates") &&
          optTruthy ((parsed.getField "candidates").bind jsonIndex0) then
        let candidate := ((parsed.getField "candidates").bind jsonIndex0).getD Json.null
        if optTruthy (candidate.getField "content") &&
            optTruthy ((candidate.getField "content").bind (fun c => c.getField "parts")) then
          match ((candidate.getField "content").bind (fun c => c.getField "parts")).getD Json.null with
          | Json.arr parts => parts.foldl (processPart gen) st
          | _ => st
        else st
      else st

/-- Model of `buffer.split('\n')` followed by `buffer = lines.pop() || ''`:
the newline-terminated lines, in order, and the retained remainder. -/
def lineSplit : List Char → List (List Char) × List Char
  | [] => ([], [])
  | c :: rest =>
    let p := lineSplit rest
    if c = '\n' then ([] :: p.1, p.2)
    else
      match p.1 with
      | [] => ([], c :: p.2)
      | l :: ls => ((c :: l) :: ls, p.2)

/-- Handling of one network chunk (src/core/gemini-client.ts:95-99): append to
the persistent buffer, split off the complete lines, process them in order,
and retain the trailing incomplete line. -/
def processChunk (gen : Nat → String) (st : List Char × StreamCore) (chunk : List Char) :
    List Char × StreamCore :=
  let split := lineSplit (st.1 ++ chunk)
  (split.2, split.1.foldl (processLine gen) st.2)

/-- Shallow embedding of the whole streamed response handling of
`GeminiClient.chatStream`: fold the chunks through the buffered line parser,
then yield one final message if any content or tool calls accumulated
(src/core/gemini-client.ts:151-161).  Returns the list of yielded messages. -/
def chatStreamYields (gen : Nat → String) (chunks : List (List Char)) : List GeminiMessage :=
  let fin := chunks.foldl (processChunk gen) ([], ⟨"", [], 0, []⟩)
  let core := fin.2
  core.yields ++
    (if core.currentContent ≠ "" || core.currentToolCalls.length > 0 then
      [streamMessage core.currentContent core.currentToolCalls]
    else [])

/-! ## Claim C2: chunk-boundary invariance of the streaming parser -/

/-- Prepends pending characters to the first line of a split, or to the
remainder when there is no complete line. -/
def prepFirst (x : List Char) (p : List (List Char) × List Char) :
    List (List Char) × List Char :=
  match p.1 with
  | [] => ([], x ++ p.2)
  | l :: ls => ((x ++ l) :: ls, p.2)

theorem lineSplit_rem_noNl (cs : List Char) : '\n' ∉ (lineSplit cs).2 := by
  induction cs with
  | nil => simp [lineSplit]
  | cons c rest ih =>
    simp only [lineSplit]
    by_cases hc : c = '\n'
    · simpa [hc] using ih
    · cases hp : (lineSplit rest).1 with
      | nil =>
        simp only [hc, if_false, hp]
        intro hmem
        rcases List.mem_cons.mp hmem with h | h
        · exact hc h.symm
        · exact ih h
      | cons l ls => simpa [hc, hp] using ih

theorem lineSplit_noNl {cs : List Char} (h : '\n' ∉ cs) : lineSplit cs = ([], cs) := by
  induction cs with
  | nil => rfl
  | cons c rest ih =>
    have hc : ¬ c = '\n' := fun hh => h (by rw [hh]; exact List.mem_cons_self ..)
    have hr := ih (fun hm => h (List.mem_cons_of_mem _ hm))
    simp [lineSplit, hc, hr]

theorem lineSplit_append (a b : List Char) :
    lineSplit (a ++ b) =
      ((lineSplit a).1 ++ (prepFirst (lineSplit a).2 (lineSplit b)).1,
       (prepFirst (lineSplit a).2 (lineSplit b)).2) := by
  induction a with
  | nil =>
    rcases hb : lineSplit b with ⟨B1, B2⟩
    cases B1 with
    | nil => simp [lineSplit, prepFirst, hb]
    | cons bh bt => simp [lineSplit, prepFirst, hb]
  | cons c a' ih =>
    rcases ha : lineSplit a' with ⟨A1, A2⟩
    rcases hb : lineSplit b with ⟨B1, B2⟩
    rw [ha, hb] at ih
    by_cases hc : c = '\n'
    · subst hc
      simp [lineSplit, ih, ha, prepFirst]
    · cases A1 with
      | nil =>
        cases B1 with
        | nil => simp [lineSplit, ih, ha, hc, prepFirst]
        | cons bh bt => simp [lineSplit, ih, ha, hc, prepFirst]
      | cons a1 as => simp [lineSplit, ih, ha, hc, prepFirst]

theorem processChunk_append (gen : Nat → String) (st : List Char × StreamCore) (a b : List Char) :
    processChunk gen (processChunk gen st a) b = processChunk gen st (a ++ b) := by
  rcases st with ⟨buf, core⟩
  simp only [processChunk]
  rw [← List.append_assoc buf a b]
  rw [lineSplit_append (buf ++ a) b]
  rw [lineSplit_append (lineSplit (buf ++ a)).2 b]
  rw [lineSplit_noNl (lineSplit_rem_noNl (buf ++ a))]
  simp [List.foldl_append]

/-- Oracle standing in for `Date.now()`/`Math.random()` id suffixes in the
concrete stream evaluations. -/
def genDefault : Nat → String := fun n => toString n

/-- First chunk of the C2 scenario: the response object cut just after the
opening `"a` of the string `"ab"` (split in the middle of a quoted string). -/
def c2Chunk1 : List Char :=
  "\x7b\"candidates\":[\x7b\"content\":\x7b\"parts\":[\x7b\"text\":\"a".data

/-- Second chunk of the C2 scenario: the rest of the response object. -/
def c2Chunk2 : List Char := "b\"\x7d]\x7d\x7d]\x7d".data

/-- Second chunk of the C2 scenario terminated by a newline, which is what the
line-buffered parser needs in order to parse the object at all. -/
def c2Chunk2N : List Char := c2Chunk2 ++ ['\n']

/-- Message carrying the accumulated text `"ab"`. -/
def abMessage : GeminiMessage :=
  { role := Role.assistant, content := "ab", toolCalls := none, toolResults := none }

/-- Counterexample to claim C2: the exact bytes
`{"candidates":[{"content":{"parts":[{"text":"ab"}]}}]}` delivered as two
chunks split inside the string `"ab"` yield NO message at all (and neither
does the unsplit feed): the parser is newline-buffered, not brace-balanced, so
a stream whose final line is not newline-terminated leaves everything in the
buffer unparsed.  The claim's required outcome — one message with text
`"ab"` — does not occur. -/
theorem stream_split_counterexample :
    chatStreamYields genDefault [c2Chunk1, c2Chunk2] = [] ∧
    chatStreamYields genDefault [c2Chunk1 ++ c2Chunk2] = [] ∧
    String.mk (c2Chunk1 ++ c2Chunk2) =
      "\x7b\"candidates\":[\x7b\"content\":\x7b\"parts\":[\x7b\"text\":\"ab\"\x7d]\x7d\x7d]\x7d" :=
  ⟨rfl, rfl, rfl⟩

/-- Claim C2 as amended: the streaming parser is split-invariant — feeding any
bytes as two chunks yields exactly the same message sequence as feeding them
as one chunk, for every split point (including one inside a quoted string) —
but it is newline-buffered rather than brace-balanced: the scenario's bytes
produce a message only when terminated by a newline, in which case the split
feed and the unsplit feed both yield the cumulative message with text `"ab"`
(once incrementally and once as the final flush). -/
theorem stream_split_invariant :
    (∀ (gen : Nat → String) (c1 c2 : List Char),
      chatStreamYields gen [c1, c2] = chatStreamYields gen [c1 ++ c2]) ∧
    chatStreamYields genDefault [c2Chunk1, c2Chunk2N] = [abMessage, abMessage] ∧
    chatStreamYields genDefault [c2Chunk1 ++ c2Chunk2N] = [abMessage, abMessage] := by
  refine ⟨?_, rfl, rfl⟩
  intro gen c1 c2
  simp only [chatStreamYields, List.foldl]
  simp only [processChunk_append]

/-! ## Non-streaming response parsing (parseGeminiResponse, gemini-client.ts:262-322) -/

/-- Wire function-call part of a response (`{name, args?}`). -/
structure FunctionCall where
  name : String
  args : Option Json
deriving Repr

/-- One part of a response candidate's content. -/
structure Part where
  text : Option String := none
  functionCall : Option FunctionCall := none
deriving Repr

/-- Content of a response candidate.  The source also probes a non-standard
`candidate.content.functionCall` field, modelled as the optional field here. -/
structure Content where
  parts : List Part
  functionCall : Option FunctionCall := none
deriving Repr

/-- One response candidate. -/
structure Candidate where
  content : Content
deriving Repr

/-- Body of a successful non-streaming response. -/
structure GeminiResponse where
  candidates : List Candidate
deriving Repr

/-- ToolCall built for one wire function call on the non-streaming path:
fresh `call_…` id, arguments defaulted by `functionCall.args || {}`. -/
def mkToolCall (gen : Nat → String) (k : Nat) (fc : FunctionCall) : ToolCall :=
  { id := freshCallId gen k
    type := "function"
    function := { name := fc.name, arguments := jsOr fc.args (Json.obj []) } }

/-- The `for (const part of parts)` collection of function-call parts
(src/core/gemini-client.ts:279-294), the fresh-id counter threaded in order. -/
def collectPartCalls (gen : Nat → String) : List Part → Nat → List ToolCall
  | [], _ => []
  | part :: rest, k =>
    match part.functionCall with
    | some fc => mkToolCall gen k fc :: collectPartCalls gen rest (k + 1)
    | none => collectPartCalls gen rest k

/-- Shallow embedding of `GeminiClient.parseGeminiResponse`
(src/core/gemini-client.ts:262-322).  `none` models the TypeError thrown when
`response.candidates[0]` is undefined (surfaced by `chat` as a transport
error).  The message content is the FIRST part's text (`parts[0]?.text ||
''`), and the tool calls are the function-call parts in order, followed by a
candidate-level `content.functionCall` when present; `toolCalls` is attached
only when nonempty. -/
def parseGeminiResponse (gen : Nat → String) (response : GeminiResponse) :
    Option GeminiMessage :=
  match response.candidates.head? with
  | none => none
  | some candidate =>
    let content := jsOrStr (candidate.content.parts.head?.bind Part.text) ""
    let partCalls := collectPartCalls gen candidate.content.parts 0
    let toolCalls :=
      partCalls ++
        (match candidate.content.functionCall with
        | some fc => [mkToolCall gen partCalls.length fc]
        | none => [])
    some { role := Role.assistant
           content := content
           toolCalls := if toolCalls.length > 0 then some toolCalls else none
           toolResults := none }

/-! ## Claim C6: content is the first text part, not the concatenation -/

/-- Modelled from the spec wording of claim C6 — `the concatenation, in order,
of all text parts of the single candidate` — for comparison only. -/
def specTextConcat (candidate : Candidate) : String :=
  String.join (candidate.content.parts.filterMap Part.text)

/-- Candidate with two text parts, for the C6 counterexample. -/
def c6Candidate : Candidate :=
  { content := { parts := [{ text := some "x" }, { text := some "y" }] } }

/-- Response wrapping `c6Candidate`. -/
def c6Response : GeminiResponse := { candidates := [c6Candidate] }

/-- Counterexample to claim C6: for a candidate with two text parts `"x"` and
`"y"`, the parsed message's content is `"x"` — only the first part's text —
while the concatenation of all text parts is `"xy"`. -/
theorem parse_concat_counterexample :
    (parseGeminiResponse genDefault c6Response).map GeminiMessage.content = some "x" ∧
    specTextConcat c6Candidate = "xy" ∧
    (parseGeminiResponse genDefault c6Response).map GeminiMessage.content ≠
      some (specTextConcat c6Candidate) :=
  ⟨rfl, rfl, by decide⟩

theorem jsOrStr_empty (o : Option String) : jsOrStr o "" = o.getD "" := by
  cases o with
  | none => rfl
  | some s => by_cases hs : s = "" <;> simp [jsOrStr, hs]

theorem collectPartCalls_names (gen : Nat → String) (parts : List Part) (k : Nat) :
    (collectPartCalls gen parts k).map (fun tc => tc.function.name) =
      (parts.filterMap Part.functionCall).map FunctionCall.name := by
  induction parts generalizing k with
  | nil => rfl
  | cons part rest ih =>
    cases hfc : part.functionCall with
    | none => simp [collectPartCalls, hfc, List.filterMap_cons, ih]
    | some fc => simp [collectPartCalls, hfc, List.filterMap_cons, mkToolCall, ih]

theorem collectPartCalls_length (gen : Nat → String) (parts : List Part) (k : Nat) :
    (collectPartCalls gen parts k).length = (parts.filterMap Part.functionCall).length := by
  have h := congrArg List.length (collectPartCalls_names gen parts k)
  simpa using h

theorem collectPartCalls_ids (gen : Nat → String) (parts : List Part) (k : Nat) :
    (collectPartCalls gen parts k).map ToolCall.id =
      (List.range' k (parts.filterMap Part.functionCall).length).map (freshCallId gen) := by
  induction parts generalizing k with
  | nil => rfl
  | cons part rest ih =>
    cases hfc : part.functionCall with
    | none => simp [collectPartCalls, hfc, List.filterMap_cons, ih]
    | some fc =>
      simp only [collectPartCalls, hfc, List.filterMap_cons, List.map_cons, List.length_cons,
        List.range'_succ, ih]
      rfl

/-- Claim C6 as amended: for every successful non-streaming response, the
parsed message's content equals the text of the FIRST part of the single
candidate (empty when absent or empty) — not the concatenation of all text
parts — and each function-call part becomes exactly one ToolCall, in order,
each with a freshly generated id (a candidate-level `content.functionCall`
contributes one extra call). -/
theorem parse_first_text_and_calls (gen : Nat → String) (response : GeminiResponse)
    (candidate : Candidate) (h : response.candidates.head? = some candidate) :
    ∃ msg, parseGeminiResponse gen response = some msg ∧
      msg.content = (match candidate.content.parts with
        | [] => ""
        | p :: _ => p.text.getD "") ∧
      (msg.toolCalls.getD []).map (fun tc => tc.function.name) =
        (candidate.content.parts.filterMap Part.functionCall).map FunctionCall.name ++
          (candidate.content.functionCall.map FunctionCall.name).toList ∧
      (msg.toolCalls.getD []).map ToolCall.id =
        (List.range (msg.toolCalls.getD []).length).map (freshCallId gen) := by
  have hparse : parseGeminiResponse gen response =
      some { role := Role.assistant
             content := jsOrStr (candidate.content.parts.head?.bind Part.text) ""
             toolCalls :=
               if (collectPartCalls gen candidate.content.parts 0 ++
                   (match candidate.content.functionCall with
                    | some fc => [mkToolCall gen
                        (collectPartCalls gen candidate.content.parts 0).length fc]
                    | none => [])).length > 0 then
                 some (collectPartCalls gen candidate.content.parts 0 ++
                   (match candidate.content.functionCall with
                    | some fc => [mkToolCall gen
                        (collectPartCalls gen candidate.content.parts 0).length fc]
                    | none => []))
               else none
             toolResults := none } := by
    unfold parseGeminiResponse
    rw [h]
  have hlist : (if (collectPartCalls gen candidate.content.parts 0 ++
      (match candidate.content.functionCall with
        | some fc => [mkToolCall gen (collectPartCalls gen candidate.content.parts 0).length fc]
        | none => [])).length > 0 then
      some (collectPartCalls gen candidate.content.parts 0 ++
      (match candidate.content.functionCall with
        | some fc => [mkToolCall gen (collectPartCalls gen candidate.content.parts 0).length fc]
        | none => [])) else none).getD [] =
      collectPartCalls gen candidate.content.parts 0 ++
      (match candidate.content.functionCall with
        | some fc => [mkToolCall gen (collectPartCalls gen candidate.content.parts 0).length fc]
        | none => []) := by
    split
    · rfl
    · rename_i hfalse
      have h0 := Nat.eq_zero_of_not_pos hfalse
      rw [Option.getD_none]
      exact (List.length_eq_zero.mp h0).symm
  refine ⟨_, hparse, ?_, ?_, ?_⟩
  · rw [jsOrStr_empty]
    cases hp : candidate.content.parts with
    | nil => rfl
    | cons p rest => simp [hp]
  · rw [hlist, List.map_append, collectPartCalls_names]
    cases hfc : candidate.content.functionCall with
    | none => simp
    | some fc => simp [mkToolCall]
  · rw [hlist]
    cases hfc : candidate.content.functionCall with
    | none =>
      simp only [List.append_nil]
      rw [collectPartCalls_ids, collectPartCalls_length, List.range_eq_range']
    | some fc =>
      simp only [List.map_append, List.length_append, List.length_singleton, List.range_succ,
        List.map_append]
      rw [collectPartCalls_ids, collectPartCalls_length, List.range_eq_range']
      simp [mkToolCall, freshCallId, collectPartCalls_length]

theorem parse_first_text_and_calls_witness :
    ∃ msg, parseGeminiResponse genDefault c6Response = some msg ∧
      msg.content = (match c6Candidate.content.parts with
        | [] => ""
        | p :: _ => p.text.getD "") ∧
      (msg.toolCalls.getD []).map (fun tc => tc.function.name) =
        (c6Candidate.content.parts.filterMap Part.functionCall).map FunctionCall.name ++
          (c6Candidate.content.functionCall.map FunctionCall.name).toList ∧
      (msg.toolCalls.getD []).map ToolCall.id =
        (List.range (msg.toolCalls.getD []).length).map (freshCallId genDefault) :=
  parse_first_text_and_calls genDefault c6Response c6Candidate rfl

/-! ## Claim C10: fresh call_ ids and defaulted arguments everywhere -/

/-- Id shape produced by the generator: the `call_` prefix plus a suffix. -/
def idPrefixOk (tc : ToolCall) : Prop :=
  ∃ s, tc.id = "call_" ++ s

/-- Invariant of the streaming state: every accumulated and every yielded tool
call has a `call_`-prefixed id. -/
def coreOk (st : StreamCore) : Prop :=
  (∀ tc ∈ st.currentToolCalls, idPrefixOk tc) ∧
  (∀ m ∈ st.yields, ∀ tc ∈ m.toolCalls.getD [], idPrefixOk tc)

theorem streamMessage_toolCalls_sub (c : String) (tcs : List ToolCall) :
    ∀ tc ∈ (streamMessage c tcs).toolCalls.getD [], tc ∈ tcs := by
  by_cases h : tcs.length > 0
  · simp only [streamMessage, h, if_pos, Option.getD_some]
    exact fun tc htc => htc
  · simp [streamMessage, h]

theorem processPartText_ok (st : StreamCore) (part : Json) (h : coreOk st) :
    coreOk (processPartText st part) := by
  unfold processPartText
  split
  · refine ⟨h.1, ?_⟩
    intro m hm
    rcases List.mem_append.mp hm with hmem | hmem
    · exact h.2 m hmem
    · have hm2 : m = streamMessage (st.currentContent ++ (match part.getField "text" with
          | some (Json.str s) => s
          | _ => "")) st.currentToolCalls := by simpa using hmem
      subst hm2
      intro tc htc
      exact h.1 tc (streamMessage_toolCalls_sub _ _ tc htc)
  · exact h

theorem processPartCall_ok (gen : Nat → String) (st : StreamCore) (part : Json)
    (h : coreOk st) : coreOk (processPartCall gen st part) := by
  unfold processPartCall
  split
  · refine ⟨?_, h.2⟩
    intro tc htc
    rcases List.mem_append.mp htc with hmem | hmem
    · exact h.1 tc hmem
    · have htc2 : tc = streamToolCallOfPart gen st.counter
          ((part.getField "functionCall").getD Json.null) := by simpa using hmem
      exact ⟨_, by rw [htc2]; rfl⟩
  · exact h

theorem processPart_ok (gen : Nat → String) (st : StreamCore) (part : Json)
    (h : coreOk st) : coreOk (processPart gen st part) :=
  processPartCall_ok gen _ part (processPartText_ok st part h)

theorem foldl_processPart_ok (gen : Nat → String) (parts : List Json) (st : StreamCore)
    (h : coreOk st) : coreOk (parts.foldl (processPart gen) st) := by
  induction parts generalizing st with
  | nil => exact h
  | cons p rest ih => exact ih _ (processPart_ok gen st p h)

theorem processLine_ok (gen : Nat → String) (st : StreamCore) (line : List Char)
    (h : coreOk st) : coreOk (processLine gen st line) := by
  unfold processLine
  split
  · exact h
  · split
    · exact h
    · split
      · dsimp only
        split
        · split
          · exact foldl_processPart_ok _ _ _ h
          · exact h
        · exact h
      · exact h

theorem foldl_processLine_ok (gen : Nat → String) (lines : List (List Char)) (st : StreamCore)
    (h : coreOk st) : coreOk (lines.foldl (processLine gen) st) := by
  induction lines generalizing st with
  | nil => exact h
  | cons l rest ih => exact ih _ (processLine_ok gen st l h)

theorem foldl_processChunk_ok (gen : Nat → String) (chunks : List (List Char))
    (st : List Char × StreamCore) (h : coreOk st.2) :
    coreOk (chunks.foldl (processChunk gen) st).2 := by
  induction chunks generalizing st with
  | nil => exact h
  | cons c rest ih =>
    apply ih
    exact foldl_processLine_ok gen _ _ h

/-- Concrete response used to witness the C10 theorem: one function-call part
carrying no `args`. -/
def c10Response : GeminiResponse :=
  { candidates := [{ content := { parts :=
      [{ text := none, functionCall := some { name := "read_file", args := none } }] } }] }

/-- Message `parseGeminiResponse` produces for `c10Response` under
`genDefault`. -/
def c10Msg : GeminiMessage :=
  { role := Role.assistant
    content := ""
    toolCalls := some [{ id := "call_0", type := "function"
                         function := { name := "read_file", arguments := Json.obj [] } }]
    toolResults := none }

theorem collectPartCalls_idsOk (gen : Nat → String) (parts : List Part) (k : Nat) :
    ∀ tc ∈ collectPartCalls gen parts k, idPrefixOk tc := by
  induction parts generalizing k with
  | nil => simp [collectPartCalls]
  | cons part rest ih =>
    cases hfc : part.functionCall with
    | none =>
      simp only [collectPartCalls, hfc]
      exact ih k
    | some fc =>
      simp only [collectPartCalls, hfc]
      intro tc htc
      rcases List.mem_cons.mp htc with hh | hh
      · exact ⟨gen k, by rw [hh]; rfl⟩
      · exact ih (k + 1) tc hh

/-- Claim C10: every ToolCall produced by response parsing — non-streaming or
streaming — has an id beginning with `call_`, and its arguments field is
always present (it is total in the embedding because the source always
assigns it), defaulting to the empty mapping when the wire function call
carries no `args`. -/
theorem tool_call_ids_and_args
    (gen : Nat → String) (response : GeminiResponse) (msg : GeminiMessage)
    (hp : parseGeminiResponse gen response = some msg) :
    (∀ tc ∈ msg.toolCalls.getD [], idPrefixOk tc) ∧
    (∀ (gen2 : Nat → String) (chunks : List (List Char)),
      ∀ m ∈ chatStreamYields gen2 chunks, ∀ tc ∈ m.toolCalls.getD [], idPrefixOk tc) ∧
    (∀ (gen2 : Nat → String) (k : Nat) (fc : FunctionCall), fc.args = none →
      (mkToolCall gen2 k fc).function.arguments = Json.obj []) ∧
    (∀ (gen2 : Nat → String) (k : Nat) (fcJson : Json), fcJson.getField "args" = none →
      (streamToolCallOfPart gen2 k fcJson).function.arguments = Json.obj []) := by
  refine ⟨?_, ?_, ?_, ?_⟩
  · intro tc htc
    unfold parseGeminiResponse at hp
    cases hh : response.candidates.head? with
    | none => rw [hh] at hp; exact absurd hp (by simp)
    | some candidate =>
      rw [hh] at hp
      dsimp only at hp
      injection hp with hmsg
      rw [← hmsg] at htc
      have htc2 : tc ∈ collectPartCalls gen candidate.content.parts 0 ++
          (match candidate.content.functionCall with
            | some fc => [mkToolCall gen
                (collectPartCalls gen candidate.content.parts 0).length fc]
            | none => []) := by
        revert htc
        show tc ∈ (if _ > 0 then some _ else none).getD [] → _
        split
        · exact fun htc => htc
        · intro htc; exact absurd htc (by simp)
      rcases List.mem_append.mp htc2 with hh2 | hh2
      · exact collectPartCalls_idsOk gen candidate.content.parts 0 tc hh2
      · cases hfc : candidate.content.functionCall with
        | none => rw [hfc] at hh2; exact absurd hh2 (by simp)
        | some fc =>
          rw [hfc] at hh2
          have : tc = mkToolCall gen
              (collectPartCalls gen candidate.content.parts 0).length fc := by
            simpa using hh2
          exact ⟨_, by rw [this]; rfl⟩
  · intro gen2 chunks m hm tc htc
    have hfold : coreOk (chunks.foldl (processChunk gen2) ([], ⟨"", [], 0, []⟩)).2 :=
      foldl_processChunk_ok gen2 chunks _ ⟨by simp, by simp⟩
    unfold chatStreamYields at hm
    rcases List.mem_append.mp hm with hmem | hmem
    · exact hfold.2 m hmem tc htc
    · revert hmem
      split
      · intro hmem
        have hm2 : m = streamMessage
            (chunks.foldl (processChunk gen2) ([], ⟨"", [], 0, []⟩)).2.currentContent
            (chunks.foldl (processChunk gen2) ([], ⟨"", [], 0, []⟩)).2.currentToolCalls := by
          simpa using hmem
        rw [hm2] at htc
        exact hfold.1 tc (streamMessage_toolCalls_sub _ _ tc htc)
      · intro hmem; exact absurd hmem (by simp)
  · intro gen2 k fc hargs
    simp [mkToolCall, jsOr, hargs]
  · intro gen2 k fcJson hargs
    simp [streamToolCallOfPart, jsOr, hargs]

theorem tool_call_ids_and_args_witness :
    (∀ tc ∈ c10Msg.toolCalls.getD [], idPrefixOk tc) ∧
    (mkToolCall genDefault 0 { name := "read_file", args := none }).function.arguments =
      Json.obj [] :=
  ⟨(tool_call_ids_and_args genDefault c10Response c10Msg rfl).1,
   (tool_call_ids_and_args genDefault c10Response c10Msg rfl).2.2.1 genDefault 0
     { name := "read_file", args := none } rfl⟩

end DevPilot
